import Mathlib

/-!
Verification of the ComplianceTrack local data store and its domain-consistency
layer, shallowly embedded from `js/db.js`, `js/pipeline.js`, `js/jobs.js`,
`js/candidates.js` and `js/clients.js`.

Modelling conventions:
* ISO-8601 timestamps are modelled as `Nat` (milliseconds since the epoch);
  the ISO string encoding used by the source is order-preserving, so `≤` on
  `Nat` coincides with the string comparison the code relies on.
* Certification dates (`dateObtained`, `expirationDate`) are modelled as the
  `Option Int` result of `new Date(...)` parsing: `none` for an absent/empty
  value, `some ms` for a parsed date.
* IndexedDB object stores are modelled as lists of records; the key path and
  unique-index constraints of `db.js` become explicit checks.
* Fallible operations (validation throws, `add` constraint failures) return
  `Except String`.
* A JS object property that may be absent is an `Option`.
-/

/-! ## Data model (record shapes produced by `db.js` create helpers) -/

structure Certification where
  type : String
  name : String
  issuingBody : String
  dateObtained : Option Int
  expirationDate : Option Int
  renewalCycle : String
deriving DecidableEq

structure Candidate where
  id : String
  firstName : String
  lastName : String
  email : String
  phone : String
  currentEmployer : String
  currentTitle : String
  location : String
  certifications : List Certification
  skills : List String
  salaryMin : Option Int
  salaryMax : Option Int
  notes : String
  source : String
  externalId : Option String
  createdAt : Nat
  updatedAt : Nat
deriving DecidableEq

structure Contact where
  name : String
  title : String
  email : String
  phone : String
  isPrimary : Bool
deriving DecidableEq

structure Client where
  id : String
  companyName : String
  industrySector : String
  contacts : List Contact
  notes : String
  externalId : Option String
  createdAt : Nat
  updatedAt : Nat
deriving DecidableEq

structure Job where
  id : String
  title : String
  clientId : String
  description : String
  requirements : String
  requiredCerts : List String
  preferredCerts : List String
  compensationMin : Option Int
  compensationMax : Option Int
  compensationType : String
  location : String
  remote : Bool
  status : String
  statusDate : Nat
  stages : List String
  externalId : Option String
  createdAt : Nat
  updatedAt : Nat
deriving DecidableEq

structure HistoryEvent where
  stage : String
  date : Nat
  notes : String
deriving DecidableEq

structure PipelineEntry where
  id : String
  candidateId : String
  jobId : String
  stage : String
  position : Nat
  history : List HistoryEvent
  createdAt : Nat
  updatedAt : Nat
deriving DecidableEq

/-- `createActivity` in `db.js` writes no `updatedAt` property; the field is
modelled as an `Option` that is `none` for records built by `createActivity`. -/
structure Activity where
  id : String
  type : String
  candidateId : String
  jobId : String
  subject : String
  body : String
  templateUsed : Option String
  status : Option String
  followUpDate : Option String
  createdAt : Nat
  updatedAt : Option Nat
deriving DecidableEq

structure Setting where
  key : String
  value : Option String
deriving DecidableEq

def DB_VERSION : Int := 3

def ACTIVITY_TYPES : List String := ["email", "call", "interview", "note", "submission"]

/-! ## Validation layer (`validateX` functions of `db.js`).
The `Array.isArray` checks of the source hold by construction in this typed
embedding, so only the string/enum checks remain. -/

/-- JS `String.prototype.trim`, written over the character list so it is
kernel-executable. -/
def strTrim (s : String) : String :=
  ⟨((s.data.dropWhile Char.isWhitespace).reverse.dropWhile Char.isWhitespace).reverse⟩

def validateCandidateB (c : Candidate) : Bool :=
  !(strTrim c.firstName == "") && !(strTrim c.lastName == "")

def validateClientB (c : Client) : Bool :=
  !(strTrim c.companyName == "")

def validateJobB (j : Job) : Bool :=
  !(strTrim j.title == "")

def validateActivityB (a : Activity) : Bool :=
  ACTIVITY_TYPES.contains a.type && !(a.candidateId == "")

def validatePipelineEntryB (e : PipelineEntry) : Bool :=
  !(e.candidateId == "") && !(e.jobId == "") && !(e.stage == "")

def validateCandidate (c : Candidate) : Except String Unit :=
  if strTrim c.firstName == "" then .error "Missing required field: firstName"
  else if strTrim c.lastName == "" then .error "Missing required field: lastName"
  else .ok ()

def validateClient (c : Client) : Except String Unit :=
  if strTrim c.companyName == "" then .error "Missing required field: companyName"
  else .ok ()

def validateJob (j : Job) : Except String Unit :=
  if strTrim j.title == "" then .error "Missing required field: title"
  else .ok ()

def validateActivity (a : Activity) : Except String Unit :=
  if !(ACTIVITY_TYPES.contains a.type) then .error "Activity type must be one of the allowed set"
  else if a.candidateId == "" then .error "Missing required field: candidateId"
  else .ok ()

def validatePipelineEntry (e : PipelineEntry) : Except String Unit :=
  if e.candidateId == "" then .error "Missing required field: candidateId"
  else if e.jobId == "" then .error "Missing required field: jobId"
  else if e.stage == "" then .error "Missing required field: stage"
  else .ok ()

/-! ## Generic store primitives -/

/-- IndexedDB `put`: overwrite the record with the same key, else append. -/
def putByKey {α : Type} (key : α → String) (store : List α) (x : α) : List α :=
  if store.any (fun y => key y == key x) then
    store.map (fun y => if key y == key x then x else y)
  else store ++ [x]

/-- IndexedDB `delete` by primary key. -/
def deleteByKey {α : Type} (key : α → String) (store : List α) (k : String) : List α :=
  store.filter (fun y => !(key y == k))

/-! ## Entity update helpers (`db.js`): validate, restamp `updatedAt`, put.
`updateActivity` is the one helper that does not restamp anything. -/

def updateCandidate (now : Nat) (c : Candidate) : Except String Candidate :=
  match validateCandidate c with
  | .error e => .error e
  | .ok _ => .ok { c with updatedAt := now }

def updateClient (now : Nat) (c : Client) : Except String Client :=
  match validateClient c with
  | .error e => .error e
  | .ok _ => .ok { c with updatedAt := now }

def updateJob (now : Nat) (j : Job) : Except String Job :=
  match validateJob j with
  | .error e => .error e
  | .ok _ => .ok { j with updatedAt := now }

def updatePipelineEntry (now : Nat) (e : PipelineEntry) : Except String PipelineEntry :=
  match validatePipelineEntry e with
  | .error err => .error err
  | .ok _ => .ok { e with updatedAt := now }

def updateActivity (a : Activity) : Except String Activity :=
  match validateActivity a with
  | .error e => .error e
  | .ok _ => .ok a

/-! ## Pipeline repository (`db.js`) -/

/-- Input record for `createPipelineEntry`; `""`/`none` model absent JS fields. -/
structure PipelineData where
  candidateId : String := ""
  jobId : String := ""
  stage : String := ""
  position : Option Nat := none
  history : Option (List HistoryEvent) := none
  createdAt : Option Nat := none
deriving DecidableEq

def createPipelineEntry (freshId : String) (now : Nat) (d : PipelineData) : PipelineEntry :=
  let stage := if d.stage == "" then "Sourced" else d.stage
  { id := freshId
    candidateId := d.candidateId
    jobId := d.jobId
    stage := stage
    position := d.position.getD 0
    history := d.history.getD [{ stage := stage, date := now, notes := "Added to pipeline" }]
    createdAt := d.createdAt.getD now
    updatedAt := now }

/-- `add` on the `pipeline` store: fails on a duplicate primary key or on the
unique `candidateJob = [candidateId, jobId]` index. -/
def addPipelineRecord (store : List PipelineEntry) (e : PipelineEntry) :
    Except String (List PipelineEntry) :=
  if store.any (fun x => x.id == e.id) then .error "ConstraintError: key exists"
  else if store.any (fun x => x.candidateId == e.candidateId && x.jobId == e.jobId) then
    .error "ConstraintError: candidateJob"
  else .ok (store ++ [e])

def addToPipeline (freshId : String) (now : Nat) (store : List PipelineEntry)
    (d : PipelineData) : Except String (PipelineEntry × List PipelineEntry) :=
  let entry := createPipelineEntry freshId now d
  match validatePipelineEntry entry with
  | .error e => .error e
  | .ok _ =>
    match addPipelineRecord store entry with
    | .error e => .error e
    | .ok store' => .ok (entry, store')

/-- The pipeline store after an `addToPipeline` call: a failed `add` aborts its
transaction, leaving the store as it was. -/
def addToPipelineState (freshId : String) (now : Nat) (store : List PipelineEntry)
    (d : PipelineData) : List PipelineEntry :=
  match addToPipeline freshId now store d with
  | .ok r => r.2
  | .error _ => store

def getPipelineByJob (store : List PipelineEntry) (jobId : String) : List PipelineEntry :=
  store.filter (fun e => e.jobId == jobId)

def getPipelineByCandidate (store : List PipelineEntry) (candidateId : String) :
    List PipelineEntry :=
  store.filter (fun e => e.candidateId == candidateId)

/-- `deletePipelineByJob`: reads the entries of the job, then deletes each by id. -/
def deletePipelineByJob (store : List PipelineEntry) (jobId : String) : List PipelineEntry :=
  let entries := getPipelineByJob store jobId
  (entries.map (·.id)).foldl (deleteByKey (·.id)) store

def deletePipelineByCandidate (store : List PipelineEntry) (candidateId : String) :
    List PipelineEntry :=
  let entries := getPipelineByCandidate store candidateId
  (entries.map (·.id)).foldl (deleteByKey (·.id)) store

def getActivitiesByCandidate (store : List Activity) (candidateId : String) : List Activity :=
  store.filter (fun a => a.candidateId == candidateId)

def deleteActivitiesByCandidate (store : List Activity) (candidateId : String) : List Activity :=
  let entries := getActivitiesByCandidate store candidateId
  (entries.map (·.id)).foldl (deleteByKey (·.id)) store

/-! ## The job delete handler (`jobs.js` `renderJobDetail`): cascade then job. -/

def deleteJobRecord (jobs : List Job) (i : String) : List Job :=
  deleteByKey (·.id) jobs i

def deleteJobHandler (jobs : List Job) (pstore : List PipelineEntry) (i : String) :
    List Job × List PipelineEntry :=
  (deleteJobRecord jobs i, deletePipelineByJob pstore i)

/-! ## Cert status helpers (`db.js`, computed, never stored) -/

/-- `Math.ceil` of an integer division with a positive divisor. -/
def ceilDiv (a b : Int) : Int := -((-a).ediv b)

def getCertStatus (now : Int) (cert : Certification) : String :=
  match cert.expirationDate with
  | none => "active"
  | some expiry =>
    match cert.dateObtained with
    | none => "pending"
    | some _ => if expiry < now then "expired" else "active"

def getCertUrgency (now : Int) (cert : Certification) (alertDays : Int) : String :=
  match cert.expirationDate with
  | none => "none"
  | some expiry =>
    let daysRemaining := ceilDiv (expiry - now) 86400000
    if daysRemaining < 0 then "expired"
    else if daysRemaining ≤ alertDays then "expiring-soon"
    else "none"

def getCertDaysRemaining (now : Int) (cert : Certification) : Option Int :=
  cert.expirationDate.map (fun expiry => ceilDiv (expiry - now) 86400000)

/-- The status label computed by `renderCertList` in `candidates.js`:
`expired` and `expiring-soon` urgency override the `pending`/`active` status. -/
inductive CertClassification
  | active
  | pending
  | expired
  | expiringSoon (days : Int)
deriving DecidableEq

def certDisplayStatus (now : Int) (alertDays : Int) (cert : Certification) :
    CertClassification :=
  if getCertUrgency now cert alertDays == "expired" then .expired
  else if getCertUrgency now cert alertDays == "expiring-soon" then
    .expiringSoon ((getCertDaysRemaining now cert).getD 0)
  else if getCertStatus now cert == "pending" then .pending
  else .active

/-! ## Store lemmas -/

theorem mem_deleteByKey {α : Type} (key : α → String) (st : List α) (k : String) (e : α) :
    e ∈ deleteByKey key st k ↔ e ∈ st ∧ key e ≠ k := by
  simp [deleteByKey, List.mem_filter]

theorem mem_foldl_deleteByKey {α : Type} (key : α → String) (ids : List String)
    (st : List α) (e : α) :
    e ∈ ids.foldl (deleteByKey key) st ↔ e ∈ st ∧ ∀ i ∈ ids, key e ≠ i := by
  induction ids generalizing st with
  | nil => simp
  | cons x xs ih =>
    simp only [List.foldl_cons, ih, mem_deleteByKey, List.mem_cons]
    constructor
    · rintro ⟨⟨he, hx⟩, hall⟩
      exact ⟨he, fun i hi => hi.elim (fun h => h ▸ hx) (hall i)⟩
    · rintro ⟨he, hall⟩
      exact ⟨⟨he, hall x (Or.inl rfl)⟩, fun i hi => hall i (Or.inr hi)⟩

/-- C3: the job delete handler removes every pipeline entry of the job and the
job itself; afterwards `getPipelineByJob` returns the empty list. -/
theorem deleteJob_cascade (jobs : List Job) (pstore : List PipelineEntry) (i : String) :
    getPipelineByJob (deleteJobHandler jobs pstore i).2 i = []
    ∧ ∀ jb ∈ (deleteJobHandler jobs pstore i).1, jb.id ≠ i := by
  constructor
  · rw [List.eq_nil_iff_forall_not_mem]
    intro e he
    rw [getPipelineByJob, List.mem_filter] at he
    obtain ⟨hmem, hjob⟩ := he
    rw [deleteJobHandler] at hmem
    simp only [deletePipelineByJob] at hmem
    rw [mem_foldl_deleteByKey] at hmem
    obtain ⟨hst, hall⟩ := hmem
    exact hall e.id (List.mem_map_of_mem _ (List.mem_filter.mpr ⟨hst, hjob⟩)) rfl
  · intro jb hjb
    rw [deleteJobHandler] at hjb
    simp only [deleteJobRecord] at hjb
    rw [mem_deleteByKey] at hjb
    exact hjb.2

def c3job : Job :=
  { id := "j1", title := "Compliance Officer", clientId := "", description := "",
    requirements := "", requiredCerts := [], preferredCerts := [],
    compensationMin := none, compensationMax := none, compensationType := "salary",
    location := "", remote := false, status := "open", statusDate := 0,
    stages := ["Sourced", "Screen", "Submitted", "Interview", "Offer", "Placed"],
    externalId := none, createdAt := 0, updatedAt := 0 }

def c3entry : PipelineEntry :=
  { id := "p1", candidateId := "c1", jobId := "j1", stage := "Sourced", position := 0,
    history := [], createdAt := 0, updatedAt := 0 }

theorem deleteJob_cascade_witness :
    getPipelineByJob (deleteJobHandler [c3job] [c3entry] "j1").2 "j1" = []
    ∧ ∀ jb ∈ (deleteJobHandler [c3job] [c3entry] "j1").1, jb.id ≠ "j1" :=
  deleteJob_cascade [c3job] [c3entry] "j1"

/-! ## C8: certification classification at the alert threshold -/

/-- C8: with a 60-day threshold, an expiration exactly 10 days out is
`expiring-soon`, an expiration one day in the past is `expired`, and a missing
expiration is `active` for every threshold. -/
theorem cert_alert_classification (now : Int) (cert : Certification) :
    (cert.expirationDate = some (now + 10 * 86400000) →
        getCertUrgency now cert 60 = "expiring-soon"
      ∧ certDisplayStatus now 60 cert = .expiringSoon 10)
    ∧ (cert.expirationDate = some (now - 86400000) →
        getCertUrgency now cert 60 = "expired"
      ∧ certDisplayStatus now 60 cert = .expired)
    ∧ (cert.expirationDate = none → ∀ alertDays : Int,
        getCertStatus now cert = "active"
      ∧ getCertUrgency now cert alertDays = "none"
      ∧ certDisplayStatus now alertDays cert = .active) := by
  refine ⟨fun h => ?_, fun h => ?_, fun h alertDays => ?_⟩
  · have harith : now + 10 * 86400000 - now = 10 * 86400000 := by ring
    have hc : ceilDiv 864000000 86400000 = 10 := by decide
    have hu : getCertUrgency now cert 60 = "expiring-soon" := by
      simp [getCertUrgency, h, harith, hc]
    refine ⟨hu, ?_⟩
    simp [certDisplayStatus, hu, getCertDaysRemaining, h, harith, hc]
  · have harith : now - 86400000 - now = -86400000 := by ring
    have hc : ceilDiv (-86400000) 86400000 = -1 := by decide
    have hu : getCertUrgency now cert 60 = "expired" := by
      simp [getCertUrgency, h, harith, hc]
    refine ⟨hu, ?_⟩
    simp [certDisplayStatus, hu]
  · have hs : getCertStatus now cert = "active" := by simp [getCertStatus, h]
    have hu : getCertUrgency now cert alertDays = "none" := by simp [getCertUrgency, h]
    refine ⟨hs, hu, ?_⟩
    simp [certDisplayStatus, hu, hs]

def c8certSoon : Certification :=
  { type := "finra", name := "Series 7", issuingBody := "FINRA",
    dateObtained := some 0, expirationDate := some 864000000, renewalCycle := "" }

def c8certExpired : Certification :=
  { type := "finra", name := "Series 24", issuingBody := "FINRA",
    dateObtained := some 0, expirationDate := some (-86400000), renewalCycle := "" }

def c8certLifetime : Certification :=
  { type := "compliance", name := "CRCM", issuingBody := "ABA",
    dateObtained := some 0, expirationDate := none, renewalCycle := "" }

theorem cert_alert_classification_witness :
    (getCertUrgency 0 c8certSoon 60 = "expiring-soon"
      ∧ certDisplayStatus 0 60 c8certSoon = .expiringSoon 10)
    ∧ (getCertUrgency 0 c8certExpired 60 = "expired"
      ∧ certDisplayStatus 0 60 c8certExpired = .expired)
    ∧ (getCertStatus 0 c8certLifetime = "active"
      ∧ getCertUrgency 0 c8certLifetime 7 = "none"
      ∧ certDisplayStatus 0 7 c8certLifetime = .active) :=
  ⟨(cert_alert_classification 0 c8certSoon).1 (by decide),
   (cert_alert_classification 0 c8certExpired).2.1 (by decide),
   (cert_alert_classification 0 c8certLifetime).2.2 (by decide) 7⟩

/-! ## C2: the unique `(candidateId, jobId)` pipeline constraint -/

/-- C2: adding a second pipeline entry for a `(candidateId, jobId)` pair that
already exists fails with the constraint error and leaves the store unchanged. -/
theorem addToPipeline_duplicate_pair (freshId : String) (now : Nat)
    (store : List PipelineEntry) (d : PipelineData)
    (hc : d.candidateId ≠ "") (hj : d.jobId ≠ "")
    (hfresh : store.any (fun x => x.id == freshId) = false)
    (hdup : store.any (fun x => x.candidateId == d.candidateId && x.jobId == d.jobId) = true) :
    addToPipeline freshId now store d = Except.error "ConstraintError: candidateJob"
    ∧ addToPipelineState freshId now store d = store := by
  have hstage : (if d.stage = "" then "Sourced" else d.stage) ≠ "" := by
    by_cases hds : d.stage = "" <;> simp [hds]
  have hval : validatePipelineEntry (createPipelineEntry freshId now d) = .ok () := by
    simp [validatePipelineEntry, createPipelineEntry, hc, hj, hstage]
  have hadd : addPipelineRecord store (createPipelineEntry freshId now d) =
      Except.error "ConstraintError: candidateJob" := by
    simp only [addPipelineRecord, createPipelineEntry]
    simp [hfresh, hdup]
  have h1 : addToPipeline freshId now store d = Except.error "ConstraintError: candidateJob" := by
    simp [addToPipeline, hval, hadd]
  exact ⟨h1, by simp [addToPipelineState, h1]⟩

def c2existing : PipelineEntry :=
  { id := "p0", candidateId := "c1", jobId := "j1", stage := "Screen", position := 0,
    history := [], createdAt := 0, updatedAt := 0 }

def c2data : PipelineData := { candidateId := "c1", jobId := "j1" }

theorem addToPipeline_duplicate_pair_witness :
    addToPipeline "p9" 5 [c2existing] c2data = Except.error "ConstraintError: candidateJob"
    ∧ addToPipelineState "p9" 5 [c2existing] c2data = [c2existing] :=
  addToPipeline_duplicate_pair "p9" 5 [c2existing] c2data
    (by decide) (by decide) (by decide) (by decide)

/-! ## C5: `update` and the `updatedAt` stamp -/

/-- C5 (amended): the update helpers for Candidate, Client, Job and
PipelineEntry restamp `updatedAt` to the current time, so a successful update
never lowers `updatedAt` while the clock is monotone; `updateActivity` leaves
the record - which carries no `updatedAt` - unchanged. -/
theorem update_advances_updatedAt :
    (∀ (now : Nat) (c : Candidate) (r : Candidate),
      updateCandidate now c = Except.ok r → c.updatedAt ≤ now → c.updatedAt ≤ r.updatedAt)
    ∧ (∀ (now : Nat) (c : Client) (r : Client),
      updateClient now c = Except.ok r → c.updatedAt ≤ now → c.updatedAt ≤ r.updatedAt)
    ∧ (∀ (now : Nat) (j : Job) (r : Job),
      updateJob now j = Except.ok r → j.updatedAt ≤ now → j.updatedAt ≤ r.updatedAt)
    ∧ (∀ (now : Nat) (e : PipelineEntry) (r : PipelineEntry),
      updatePipelineEntry now e = Except.ok r → e.updatedAt ≤ now → e.updatedAt ≤ r.updatedAt)
    ∧ (∀ (a : Activity) (r : Activity),
      updateActivity a = Except.ok r → r.updatedAt = a.updatedAt) := by
  refine ⟨?_, ?_, ?_, ?_, ?_⟩
  · intro now c r h hle
    cases hv : validateCandidate c with
    | error e => simp [updateCandidate, hv] at h
    | ok u =>
      simp only [updateCandidate, hv] at h
      cases h
      exact hle
  · intro now c r h hle
    cases hv : validateClient c with
    | error e => simp [updateClient, hv] at h
    | ok u =>
      simp only [updateClient, hv] at h
      cases h
      exact hle
  · intro now j r h hle
    cases hv : validateJob j with
    | error e => simp [updateJob, hv] at h
    | ok u =>
      simp only [updateJob, hv] at h
      cases h
      exact hle
  · intro now e r h hle
    cases hv : validatePipelineEntry e with
    | error err => simp [updatePipelineEntry, hv] at h
    | ok u =>
      simp only [updatePipelineEntry, hv] at h
      cases h
      exact hle
  · intro a r h
    cases hv : validateActivity a with
    | error e => simp [updateActivity, hv] at h
    | ok u =>
      simp only [updateActivity, hv] at h
      cases h
      rfl

def c5candidate : Candidate :=
  { id := "c1", firstName := "Ann", lastName := "Lee", email := "", phone := "",
    currentEmployer := "", currentTitle := "", location := "", certifications := [],
    skills := [], salaryMin := none, salaryMax := none, notes := "", source := "",
    externalId := none, createdAt := 10, updatedAt := 10 }

def c5updated : Candidate := { c5candidate with updatedAt := 25 }

theorem update_advances_updatedAt_witness :
    c5candidate.updatedAt ≤ c5updated.updatedAt :=
  update_advances_updatedAt.1 25 c5candidate c5updated (by rfl) (by decide)

def c5activity : Activity :=
  { id := "a1", type := "note", candidateId := "c1", jobId := "", subject := "",
    body := "", templateUsed := none, status := none, followUpDate := none,
    createdAt := 0, updatedAt := none }

/-- C5 counterexample: the claim ranges over all five entity types, but an
Activity record carries no `updatedAt` value at all, and a successful
`updateActivity` returns it unchanged, so the updated record has no
`updatedAt` that could be `≥` a previous one. -/
theorem updateActivity_no_updatedAt :
    updateActivity c5activity = Except.ok c5activity ∧ c5activity.updatedAt = none :=
  ⟨rfl, rfl⟩

/-! ## Application stores and the candidate delete handler -/

structure Stores where
  candidates : List Candidate
  clients : List Client
  jobs : List Job
  pipeline : List PipelineEntry
  activities : List Activity
  settings : List Setting
deriving DecidableEq

def getCandidate (store : List Candidate) (i : String) : Option Candidate :=
  store.find? (fun c => c.id == i)

/-- The delete handler of `renderCandidateDetail` in `candidates.js`: it takes
a value snapshot of the candidate (certifications copied), deletes only the
`candidates` record, and keeps the snapshot for the undo toast. The `pipeline`
and `activities` stores are not touched by this handler. -/
def deleteCandidateHandler (st : Stores) (c : Candidate) : Stores × Candidate :=
  let snapshot := c
  ({ st with candidates := deleteByKey (·.id) st.candidates c.id }, snapshot)

/-- The undo action of the delete toast: `db.put('candidates', snapshot)`. -/
def undoCandidateDelete (st : Stores) (snapshot : Candidate) : Stores :=
  { st with candidates := putByKey (·.id) st.candidates snapshot }

def c4candidate : Candidate :=
  { id := "c1", firstName := "Dana", lastName := "Reed", email := "", phone := "",
    currentEmployer := "", currentTitle := "", location := "", certifications := [],
    skills := [], salaryMin := none, salaryMax := none, notes := "", source := "",
    externalId := none, createdAt := 0, updatedAt := 0 }

def c4entry : PipelineEntry :=
  { id := "p1", candidateId := "c1", jobId := "j1", stage := "Sourced", position := 0,
    history := [], createdAt := 0, updatedAt := 0 }

def c4activity : Activity :=
  { id := "a1", type := "call", candidateId := "c1", jobId := "", subject := "",
    body := "", templateUsed := none, status := none, followUpDate := none,
    createdAt := 0, updatedAt := none }

def c4stores : Stores :=
  { candidates := [c4candidate], clients := [], jobs := [], pipeline := [c4entry],
    activities := [c4activity], settings := [] }

/-- C4 evidence: deleting candidate `c1` through the UI handler removes the
candidate record but leaves its pipeline entry and activity in place - the
handler never calls `deletePipelineByCandidate` or `deleteActivitiesByCandidate`
(both defined in `db.js` and called from nowhere), so the cascade the claim
describes does not happen. -/
theorem deleteCandidate_leaves_orphans :
    getCandidate (deleteCandidateHandler c4stores c4candidate).1.candidates "c1" = none
    ∧ getPipelineByCandidate (deleteCandidateHandler c4stores c4candidate).1.pipeline "c1"
        = [c4entry]
    ∧ getActivitiesByCandidate (deleteCandidateHandler c4stores c4candidate).1.activities "c1"
        = [c4activity] := by
  refine ⟨rfl, rfl, rfl⟩

/-! ## JSON backup restore (`handleJsonRestore` in `jobs.js`) -/

def SETTINGS_WHITELIST : List String := ["certAlertDays", "customCertTypes", "emailTemplates"]

structure RestoreSummary where
  people : Nat
  skipped : Nat
  clients : Nat
  jobs : Nat
  pipeline : Nat
  activities : Nat
deriving DecidableEq

/-- A parsed backup file; `none` models an absent or non-array field. -/
structure BackupFile where
  version : Option Int := none
  candidates : Option (List Candidate) := none
  clients : Option (List Client) := none
  jobs : Option (List Job) := none
  pipeline : Option (List PipelineEntry) := none
  activities : Option (List Activity) := none
  settings : Option (List Setting) := none
deriving DecidableEq

/-- The version gate `data.version && data.version > DB_VERSION`: a missing or
zero (falsy) version is never rejected. -/
def versionRejected (version : Option Int) : Bool :=
  match version with
  | some v => !(v == 0) && decide (DB_VERSION < v)
  | none => false

/-- The per-candidate shape check: `!c.id || !c.firstName || !c.lastName`. -/
def validCandidateShape (c : Candidate) : Bool :=
  !(c.id == "") && !(c.firstName == "") && !(c.lastName == "")

/-- The settings phase: `db.put` for each record whose key is whitelisted and
whose value is present. -/
def restoreSettings (store : List Setting) (bs : Option (List Setting)) : List Setting :=
  match bs with
  | none => store
  | some l =>
    l.foldl (fun st s =>
      if !(s.key == "") && SETTINGS_WHITELIST.contains s.key && s.value.isSome then
        putByKey (·.key) st s
      else st) store

/-- The shared shape of the Phase-2/3 restore blocks: skip records with a
falsy or already-present id, validate, silently skip invalid records. -/
def importNew {α : Type} (key : α → String) (valid : α → Bool)
    (existing : List α) (backup : Option (List α)) : List α :=
  match backup with
  | none => []
  | some l =>
    let ex := existing.map key
    l.filter (fun x => !(key x == "") && !(ex.contains (key x)) && valid x)

def handleJsonRestore (st : Stores) (f : BackupFile) :
    Except String (Stores × RestoreSummary) :=
  match f.candidates with
  | none => .error "Invalid backup file: missing candidates array"
  | some bcands =>
    if versionRejected f.version then
      .error "Backup is from a newer version"
    else if !(bcands.all validCandidateShape) then
      .error "Invalid person: missing id, firstName, or lastName"
    else
      let existingIds := st.candidates.map (·.id)
      let toImport := bcands.filter (fun c => !(existingIds.contains c.id))
      let skipped := (bcands.filter (fun c => existingIds.contains c.id)).length
      if !(toImport.all validateCandidateB) then
        -- `addCandidatesBatch` validates every record before its transaction
        .error "Missing required field"
      else
        let candidates' := toImport.foldl (putByKey (·.id)) st.candidates
        let clientsNew := importNew (·.id) validateClientB st.clients f.clients
        let clients' := clientsNew.foldl (putByKey (·.id)) st.clients
        let jobsNew := importNew (·.id) validateJobB st.jobs f.jobs
        let jobs' := jobsNew.foldl (putByKey (·.id)) st.jobs
        let pipelineNew := importNew (·.id) validatePipelineEntryB st.pipeline f.pipeline
        let pipeline' := pipelineNew.foldl (putByKey (·.id)) st.pipeline
        let activitiesNew := importNew (·.id) validateActivityB st.activities f.activities
        let activities' := activitiesNew.foldl (putByKey (·.id)) st.activities
        let settings' := restoreSettings st.settings f.settings
        .ok ({ candidates := candidates', clients := clients', jobs := jobs',
               pipeline := pipeline', activities := activities', settings := settings' },
             { people := toImport.length, skipped := skipped, clients := clientsNew.length,
               jobs := jobsNew.length, pipeline := pipelineNew.length,
               activities := activitiesNew.length })

/-- The stores after a restore attempt: an error leaves every store unchanged
(the failure paths above all precede the first write). -/
def restoreState (st : Stores) (f : BackupFile) : Stores :=
  match handleJsonRestore st f with
  | .ok r => r.1
  | .error _ => st

def getSettingRecord (store : List Setting) (k : String) : Option Setting :=
  store.find? (fun s => s.key == k)

/-! ## Frame lemmas for `putByKey` -/

theorem map_put_id {α : Type} (key : α → String) (x : α) :
    ∀ st : List α, (∀ y ∈ st, key y ≠ key x) →
      st.map (fun y => if key y == key x then x else y) = st := by
  intro st
  induction st with
  | nil => intro _; rfl
  | cons b bs ih =>
    intro hb
    have hne : (key b == key x) = false := by
      rw [beq_eq_false_iff_ne]
      exact hb b (List.mem_cons_self b bs)
    rw [List.map_cons, hne, if_neg (by simp), ih (fun y hy => hb y (List.mem_cons_of_mem b hy))]

theorem putByKey_front {α : Type} (key : α → String) (store rest : List α) (x : α)
    (h : ∀ y ∈ store, key y ≠ key x) :
    putByKey key (store ++ rest) x = store ++ putByKey key rest x := by
  have hstore : store.any (fun y => key y == key x) = false := by
    rw [List.any_eq_false]
    intro y hy
    simpa using h y hy
  rw [putByKey, putByKey, List.any_append, hstore, Bool.false_or]
  by_cases hr : rest.any (fun y => key y == key x) = true
  · rw [hr, if_pos rfl, if_pos rfl, List.map_append, map_put_id key x store h]
  · rw [Bool.not_eq_true] at hr
    rw [hr, if_neg (by simp), if_neg (by simp), List.append_assoc]

theorem foldl_putByKey_front {α : Type} (key : α → String) (store : List α)
    (xs : List α) (rest : List α)
    (h : ∀ x ∈ xs, ∀ y ∈ store, key y ≠ key x) :
    xs.foldl (putByKey key) (store ++ rest) = store ++ xs.foldl (putByKey key) rest := by
  induction xs generalizing rest with
  | nil => simp
  | cons x xs ih =>
    simp only [List.foldl_cons]
    rw [putByKey_front key store rest x (h x (List.mem_cons_self x xs))]
    exact ih _ (fun z hz y hy => h z (List.mem_cons_of_mem x hz) y hy)

theorem find?_key_self {α : Type} (key : α → String) (store : List α)
    (h : (store.map key).Nodup) (a : α) (ha : a ∈ store) :
    store.find? (fun y => key y == key a) = some a := by
  induction store with
  | nil => cases ha
  | cons b bs ih =>
    rw [List.map_cons, List.nodup_cons] at h
    rcases List.mem_cons.mp ha with rfl | hmem
    · simp [List.find?_cons]
    · have hne : (key b == key a) = false := by
        rw [beq_eq_false_iff_ne]
        intro hkey
        exact h.1 (hkey ▸ List.mem_map_of_mem key hmem)
      rw [List.find?_cons, hne]
      exact ih h.2 hmem

theorem find?_append_some {α : Type} (p : α → Bool) (l₁ l₂ : List α) (a : α)
    (h : l₁.find? p = some a) : (l₁ ++ l₂).find? p = some a := by
  induction l₁ with
  | nil => cases h
  | cons b bs ih =>
    rw [List.cons_append, List.find?_cons]
    rw [List.find?_cons] at h
    cases hp : p b with
    | true => rw [hp] at h; simpa [hp] using h
    | false => rw [hp] at h; simpa [hp] using ih h

/-- Records already in the store are still found unchanged after a batch of
`putByKey` inserts whose keys are all new. -/
theorem foldl_putByKey_preserves {α : Type} (key : α → String) (store xs : List α)
    (hnodup : (store.map key).Nodup)
    (hdisj : ∀ x ∈ xs, ∀ y ∈ store, key y ≠ key x)
    (a : α) (ha : a ∈ store) :
    (xs.foldl (putByKey key) store).find? (fun y => key y == key a) = some a := by
  have hsplit : xs.foldl (putByKey key) store = store ++ xs.foldl (putByKey key) [] := by
    have := foldl_putByKey_front key store xs [] hdisj
    simpa using this
  rw [hsplit]
  exact find?_append_some _ _ _ _ (find?_key_self key store hnodup a ha)

theorem importNew_fresh {α : Type} (key : α → String) (valid : α → Bool)
    (existing : List α) (backup : Option (List α)) :
    ∀ x ∈ importNew key valid existing backup,
      (existing.map key).contains (key x) = false := by
  cases backup with
  | none => intro x hx; cases hx
  | some l =>
    intro x hx
    simp only [importNew, List.mem_filter] at hx
    have h2 := hx.2
    simp only [Bool.and_eq_true, Bool.not_eq_true'] at h2
    exact h2.1.2

/-- Inversion of a successful restore: the final stores and summary in terms
of the inputs. -/
theorem handleJsonRestore_ok (st : Stores) (f : BackupFile) (st' : Stores)
    (s : RestoreSummary) (hok : handleJsonRestore st f = Except.ok (st', s)) :
    ∃ bcands, f.candidates = some bcands
    ∧ st'.candidates = (bcands.filter
        (fun c => !((st.candidates.map (·.id)).contains c.id))).foldl
          (putByKey (·.id)) st.candidates
    ∧ st'.clients = (importNew (·.id) validateClientB st.clients f.clients).foldl
        (putByKey (·.id)) st.clients
    ∧ st'.jobs = (importNew (·.id) validateJobB st.jobs f.jobs).foldl
        (putByKey (·.id)) st.jobs
    ∧ st'.pipeline = (importNew (·.id) validatePipelineEntryB st.pipeline f.pipeline).foldl
        (putByKey (·.id)) st.pipeline
    ∧ st'.activities = (importNew (·.id) validateActivityB st.activities f.activities).foldl
        (putByKey (·.id)) st.activities
    ∧ st'.settings = restoreSettings st.settings f.settings
    ∧ s.skipped = (bcands.filter
        (fun c => (st.candidates.map (·.id)).contains c.id)).length := by
  cases hfc : f.candidates with
  | none => simp [handleJsonRestore, hfc] at hok
  | some bcands =>
    refine ⟨bcands, rfl, ?_⟩
    simp only [handleJsonRestore, hfc] at hok
    split at hok
    · cases hok
    · split at hok
      · cases hok
      · split at hok
        · cases hok
        · rw [Except.ok.injEq, Prod.mk.injEq] at hok
          obtain ⟨hst, hsum⟩ := hok
          rw [← hst, ← hsum]
          exact ⟨rfl, rfl, rfl, rfl, rfl, rfl, rfl⟩

theorem contains_false_ne {α : Type} (key : α → String) (l : List α) (k : String)
    (h : (l.map key).contains k = false) : ∀ y ∈ l, key y ≠ k := by
  intro y hy hk
  have hnot : k ∉ l.map key := by simpa using h
  exact hnot (hk ▸ List.mem_map_of_mem key hy)

/-- C6 (amended): a restore never alters an existing candidate, client, job,
pipeline or activity record (ids already present are skipped), and the
summary's skipped count equals the number of backup candidates whose id
already exists; skips in the other collections are not counted, and
whitelisted settings keys are overwritten (see the counterexample). -/
theorem restore_additive (st : Stores) (f : BackupFile) (st' : Stores)
    (s : RestoreSummary) (hok : handleJsonRestore st f = Except.ok (st', s))
    (h1 : (st.candidates.map (·.id)).Nodup)
    (h2 : (st.clients.map (·.id)).Nodup)
    (h3 : (st.jobs.map (·.id)).Nodup)
    (h4 : (st.pipeline.map (·.id)).Nodup)
    (h5 : (st.activities.map (·.id)).Nodup) :
    (∀ c ∈ st.candidates, st'.candidates.find? (fun y => y.id == c.id) = some c)
    ∧ (∀ c ∈ st.clients, st'.clients.find? (fun y => y.id == c.id) = some c)
    ∧ (∀ j ∈ st.jobs, st'.jobs.find? (fun y => y.id == j.id) = some j)
    ∧ (∀ p ∈ st.pipeline, st'.pipeline.find? (fun y => y.id == p.id) = some p)
    ∧ (∀ a ∈ st.activities, st'.activities.find? (fun y => y.id == a.id) = some a)
    ∧ s.skipped = ((f.candidates.getD []).filter
        (fun c => (st.candidates.map (·.id)).contains c.id)).length := by
  obtain ⟨bcands, hfc, hcand, hcl, hjb, hpl, hact, _, hskip⟩ :=
    handleJsonRestore_ok st f st' s hok
  refine ⟨?_, ?_, ?_, ?_, ?_, ?_⟩
  · intro c hc
    rw [hcand]
    refine foldl_putByKey_preserves (·.id) st.candidates _ h1 ?_ c hc
    intro x hx
    rw [List.mem_filter] at hx
    have : (st.candidates.map (·.id)).contains x.id = false := by
      simpa using hx.2
    exact contains_false_ne (·.id) st.candidates x.id this
  · intro c hc
    rw [hcl]
    refine foldl_putByKey_preserves (·.id) st.clients _ h2 ?_ c hc
    intro x hx
    exact contains_false_ne (·.id) st.clients x.id
      (importNew_fresh (·.id) validateClientB st.clients f.clients x hx)
  · intro j hj
    rw [hjb]
    refine foldl_putByKey_preserves (·.id) st.jobs _ h3 ?_ j hj
    intro x hx
    exact contains_false_ne (·.id) st.jobs x.id
      (importNew_fresh (·.id) validateJobB st.jobs f.jobs x hx)
  · intro p hp
    rw [hpl]
    refine foldl_putByKey_preserves (·.id) st.pipeline _ h4 ?_ p hp
    intro x hx
    exact contains_false_ne (·.id) st.pipeline x.id
      (importNew_fresh (·.id) validatePipelineEntryB st.pipeline f.pipeline x hx)
  · intro a ha
    rw [hact]
    refine foldl_putByKey_preserves (·.id) st.activities _ h5 ?_ a ha
    intro x hx
    exact contains_false_ne (·.id) st.activities x.id
      (importNew_fresh (·.id) validateActivityB st.activities f.activities x hx)
  · rw [hfc]
    simpa using hskip

def c6wex : Candidate :=
  { id := "c1", firstName := "Old", lastName := "Record", email := "", phone := "",
    currentEmployer := "", currentTitle := "", location := "", certifications := [],
    skills := [], salaryMin := none, salaryMax := none, notes := "", source := "",
    externalId := none, createdAt := 0, updatedAt := 0 }

def c6wdup : Candidate := { c6wex with firstName := "Altered", lastName := "Copy" }

def c6wstores : Stores :=
  { candidates := [c6wex], clients := [], jobs := [], pipeline := [],
    activities := [], settings := [] }

def c6wfile : BackupFile := { version := some 3, candidates := some [c6wdup] }

theorem restore_additive_witness :
    c6wstores.candidates.find? (fun y => y.id == c6wex.id) = some c6wex
    ∧ (1 : Nat) = ((c6wfile.candidates.getD []).filter
        (fun c => (c6wstores.candidates.map (·.id)).contains c.id)).length := by
  have h := restore_additive c6wstores c6wfile c6wstores
    { people := 0, skipped := 1, clients := 0, jobs := 0, pipeline := 0, activities := 0 }
    rfl (by decide) (by decide) (by decide) (by decide) (by decide)
  exact ⟨h.1 c6wex (by decide), h.2.2.2.2.2⟩

def c6client : Client :=
  { id := "k1", companyName := "Acme", industrySector := "", contacts := [],
    notes := "", externalId := none, createdAt := 0, updatedAt := 0 }

def c6clientBackup : Client := { c6client with companyName := "Acme Renamed" }

def c6xstores : Stores :=
  { candidates := [], clients := [c6client], jobs := [], pipeline := [],
    activities := [], settings := [{ key := "certAlertDays", value := some "30" }] }

def c6xfile : BackupFile :=
  { version := some 3, candidates := some [], clients := some [c6clientBackup],
    settings := some [{ key := "certAlertDays", value := some "90" }] }

/-- C6 counterexample: the claim quantifies over every backup record whose id
already exists. Restoring `c6xfile` over `c6xstores` (a) overwrites the
existing `certAlertDays` settings record (its key is its id), so the existing
local record IS altered, and (b) silently skips the existing client record
without increasing the skipped count, which stays 0. -/
theorem restore_not_fully_additive :
    (handleJsonRestore c6xstores c6xfile).isOk = true
    ∧ getSettingRecord c6xstores.settings "certAlertDays"
        = some { key := "certAlertDays", value := some "30" }
    ∧ getSettingRecord (restoreState c6xstores c6xfile).settings "certAlertDays"
        = some { key := "certAlertDays", value := some "90" }
    ∧ (match handleJsonRestore c6xstores c6xfile with
       | .ok r => r.2.skipped
       | .error _ => 99) = 0 :=
  ⟨rfl, rfl, rfl, rfl⟩

/-! ## C7: the backup version gate -/

/-- C7 (amended): a backup whose `version` field is present and numerically
greater than `DB_VERSION` is rejected with an explicit error before any record
is written; the stores are left unchanged. (A missing or zero `version` - also
not a known schema version - is NOT rejected; see the counterexample.) -/
theorem restore_rejects_newer_version (st : Stores) (f : BackupFile) (v : Int)
    (hv : f.version = some v) (hgt : DB_VERSION < v)
    (bc : List Candidate) (hc : f.candidates = some bc) :
    handleJsonRestore st f = Except.error "Backup is from a newer version"
    ∧ restoreState st f = st := by
  have hne : ¬ v = 0 := by
    rw [DB_VERSION] at hgt
    omega
  have hrej : versionRejected f.version = true := by
    rw [hv, versionRejected]
    simp [hne, hgt]
  have h1 : handleJsonRestore st f = Except.error "Backup is from a newer version" := by
    simp [handleJsonRestore, hc, hrej]
  exact ⟨h1, by simp [restoreState, h1]⟩

def c7wstores : Stores :=
  { candidates := [], clients := [], jobs := [], pipeline := [],
    activities := [], settings := [] }

def c7wfile : BackupFile := { version := some 99, candidates := some [] }

theorem restore_rejects_newer_version_witness :
    handleJsonRestore c7wstores c7wfile = Except.error "Backup is from a newer version"
    ∧ restoreState c7wstores c7wfile = c7wstores :=
  restore_rejects_newer_version c7wstores c7wfile 99 rfl (by decide) [] rfl

def c7cand : Candidate :=
  { id := "n1", firstName := "New", lastName := "Person", email := "", phone := "",
    currentEmployer := "", currentTitle := "", location := "", certifications := [],
    skills := [], salaryMin := none, salaryMax := none, notes := "", source := "",
    externalId := none, createdAt := 0, updatedAt := 0 }

def c7zstores : Stores :=
  { candidates := [], clients := [], jobs := [], pipeline := [],
    activities := [], settings := [] }

def c7zfile : BackupFile := { version := some 0, candidates := some [c7cand] }

/-- C7 counterexample: a backup whose version field holds `0` - not a known
schema version (valid versions are 1..3) and not newer - passes the gate
`data.version && data.version > DB_VERSION`, so the restore is attempted and
writes a record instead of being rejected. -/
theorem restore_attempts_unknown_version :
    (handleJsonRestore c7zstores c7zfile).isOk = true
    ∧ getCandidate (restoreState c7zstores c7zfile).candidates "n1" = some c7cand :=
  ⟨rfl, rfl⟩

/-! ## C10: the settings whitelist frame -/

theorem find?_map_put {α : Type} (key : α → String) (x : α) (k : String)
    (hxk : (key x == k) = false) :
    ∀ st : List α,
      (st.map (fun y => if key y == key x then x else y)).find? (fun y => key y == k)
        = st.find? (fun y => key y == k) := by
  intro st
  induction st with
  | nil => rfl
  | cons b bs ih =>
    by_cases hb : (key b == key x) = true
    · have hbk : (key b == k) = false := by
        rw [beq_iff_eq] at hb
        rw [show key b = key x from hb]
        exact hxk
      rw [List.map_cons, if_pos hb, List.find?_cons, hxk, List.find?_cons, hbk]
      exact ih
    · rw [Bool.not_eq_true] at hb
      rw [List.map_cons, if_neg (by simp [hb]), List.find?_cons, List.find?_cons]
      cases hbk : (key b == k) with
      | true => rfl
      | false => exact ih

theorem find?_append_single_none {α : Type} (p : α → Bool) (st : List α) (x : α)
    (hx : p x = false) (hst : st.find? p = none) : (st ++ [x]).find? p = none := by
  induction st with
  | nil => simp [List.find?, hx]
  | cons b bs ih =>
    rw [List.find?_cons] at hst
    rw [List.cons_append, List.find?_cons]
    cases hb : p b with
    | true => rw [hb] at hst; cases hst
    | false => rw [hb] at hst; exact ih hst

theorem find?_putByKey_ne {α : Type} (key : α → String) (st : List α) (x : α)
    (k : String) (h : key x ≠ k) :
    (putByKey key st x).find? (fun y => key y == k) = st.find? (fun y => key y == k) := by
  have hxk : (key x == k) = false := by rw [beq_eq_false_iff_ne]; exact h
  rw [putByKey]
  by_cases hany : st.any (fun y => key y == key x) = true
  · rw [if_pos hany]
    exact find?_map_put key x k hxk st
  · rw [Bool.not_eq_true] at hany
    rw [if_neg (by simp [hany])]
    cases hfind : st.find? (fun y => key y == k) with
    | some a => exact find?_append_some _ _ _ _ hfind
    | none => exact find?_append_single_none _ st x hxk hfind

theorem restoreSettings_foldl_frame (k : String)
    (hk : SETTINGS_WHITELIST.contains k = false) :
    ∀ (l : List Setting) (store : List Setting),
      getSettingRecord
        (l.foldl (fun st s =>
          if !(s.key == "") && SETTINGS_WHITELIST.contains s.key && s.value.isSome then
            putByKey (·.key) st s
          else st) store) k
        = getSettingRecord store k := by
  intro l
  induction l with
  | nil => intro store; rfl
  | cons s l' ih =>
    intro store
    rw [List.foldl_cons]
    by_cases hcond :
        (!(s.key == "") && SETTINGS_WHITELIST.contains s.key && s.value.isSome) = true
    · rw [if_pos hcond, ih]
      have hmem : SETTINGS_WHITELIST.contains s.key = true := by
        simp only [Bool.and_eq_true] at hcond
        exact hcond.1.2
      have hne : s.key ≠ k := by
        intro he
        rw [he, hk] at hmem
        cases hmem
      exact find?_putByKey_ne (·.key) store s k hne
    · rw [Bool.not_eq_true] at hcond
      simp only [hcond, Bool.false_eq_true, if_false]
      exact ih store

theorem restoreSettings_frame (store : List Setting) (bs : Option (List Setting))
    (k : String) (hk : SETTINGS_WHITELIST.contains k = false) :
    getSettingRecord (restoreSettings store bs) k = getSettingRecord store k := by
  cases bs with
  | none => rfl
  | some l => exact restoreSettings_foldl_frame k hk l store

/-- C10: during a JSON restore, settings records are written only for the
whitelisted keys `certAlertDays`, `customCertTypes` and `emailTemplates`; at
every other key the settings collection is unchanged. -/
theorem restore_settings_whitelist_only (st : Stores) (f : BackupFile) (st' : Stores)
    (s : RestoreSummary) (hok : handleJsonRestore st f = Except.ok (st', s))
    (k : String) (hk : SETTINGS_WHITELIST.contains k = false) :
    getSettingRecord st'.settings k = getSettingRecord st.settings k := by
  obtain ⟨_, _, _, _, _, _, _, hset, _⟩ := handleJsonRestore_ok st f st' s hok
  rw [hset]
  exact restoreSettings_frame st.settings f.settings k hk

def c10stores : Stores :=
  { candidates := [], clients := [], jobs := [], pipeline := [],
    activities := [], settings := [{ key := "other", value := some "1" }] }

def c10file : BackupFile :=
  { version := some 3, candidates := some [],
    settings := some [{ key := "certAlertDays", value := some "90" },
                      { key := "weird", value := some "2" }] }

def c10stores' : Stores :=
  { candidates := [], clients := [], jobs := [], pipeline := [], activities := [],
    settings := [{ key := "other", value := some "1" },
                 { key := "certAlertDays", value := some "90" }] }

theorem restore_settings_whitelist_only_witness :
    getSettingRecord c10stores'.settings "weird" = getSettingRecord c10stores.settings "weird"
    ∧ getSettingRecord c10stores'.settings "other" = getSettingRecord c10stores.settings "other" :=
  ⟨restore_settings_whitelist_only c10stores c10file c10stores'
      { people := 0, skipped := 0, clients := 0, jobs := 0, pipeline := 0, activities := 0 }
      rfl "weird" (by decide),
   restore_settings_whitelist_only c10stores c10file c10stores'
      { people := 0, skipped := 0, clients := 0, jobs := 0, pipeline := 0, activities := 0 }
      rfl "other" (by decide)⟩

/-! ## C9: the client delete handler (`clients.js` `renderClientDetail`) -/

def getJobsByClient (jobs : List Job) (clientId : String) : List Job :=
  jobs.filter (fun j => j.clientId == clientId)

/-- The job record as written back by the unlink loop: `clientId` cleared,
`updatedAt` restamped by `updateJob`; every other field untouched. -/
def unlinkedJob (now : Nat) (x : Job) : Job :=
  { x with clientId := "", updatedAt := now }

/-- The unlink loop of the delete handler: for each linked job, set
`clientId = ''`, then `db.updateJob` (validate, restamp `updatedAt`, put). -/
def unlinkJobs (now : Nat) (js : List Job) (linked : List Job) : Except String (List Job) :=
  match linked with
  | [] => .ok js
  | jb :: rest =>
    match validateJob { jb with clientId := "" } with
    | .error e => .error e
    | .ok _ => unlinkJobs now (putByKey (·.id) js (unlinkedJob now jb)) rest

def clientDeleteHandler (now : Nat) (clients : List Client) (jobs : List Job)
    (k : String) : Except String (List Client × List Job) :=
  match unlinkJobs now jobs (getJobsByClient jobs k) with
  | .error e => .error e
  | .ok jobs' => .ok (deleteByKey (·.id) clients k, jobs')

theorem unlinkedJob_id (now : Nat) (x : Job) : (unlinkedJob now x).id = x.id := rfl

theorem unlinkJobs_ok (now : Nat) :
    ∀ (linked js out : List Job),
      unlinkJobs now js linked = Except.ok out →
      (linked.map (·.id)).Nodup →
      (∀ x ∈ linked, js.any (fun y => y.id == x.id) = true) →
      out = js.map (fun y =>
        match linked.find? (fun x => x.id == y.id) with
        | some x => unlinkedJob now x
        | none => y) := by
  intro linked
  induction linked with
  | nil =>
    intro js out hok _ _
    simp only [unlinkJobs, Except.ok.injEq] at hok
    simp [← hok]
  | cons x rest ih =>
    intro js out hok hnd hmem
    rw [List.map_cons, List.nodup_cons] at hnd
    simp only [unlinkJobs] at hok
    cases hv : validateJob { x with clientId := "" } with
    | error e => simp [hv] at hok
    | ok u =>
      simp only [hv] at hok
      have hx : js.any (fun y => y.id == x.id) = true :=
        hmem x (List.mem_cons_self x rest)
      have hput : putByKey (·.id) js (unlinkedJob now x)
          = js.map (fun y => if y.id == x.id then unlinkedJob now x else y) := by
        rw [putByKey]
        rw [if_pos (show js.any (fun y => y.id == (unlinkedJob now x).id) = true from hx)]
        simp only [unlinkedJob_id]
      rw [hput] at hok
      have hgid : ∀ y : Job, (if y.id == x.id then unlinkedJob now x else y).id = y.id := by
        intro y
        by_cases hy : y.id = x.id
        · simp [hy, unlinkedJob_id]
        · simp [hy]
      have hmem' : ∀ z ∈ rest,
          (js.map (fun y => if y.id == x.id then unlinkedJob now x else y)).any
              (fun y => y.id == z.id) = true := by
        intro z hz
        have h1 := hmem z (List.mem_cons_of_mem x hz)
        rw [List.any_eq_true] at h1 ⊢
        obtain ⟨y, hyjs, hyz⟩ := h1
        refine ⟨if y.id == x.id then unlinkedJob now x else y,
          List.mem_map_of_mem _ hyjs, ?_⟩
        rw [hgid y]
        exact hyz
      have hrec := ih _ out hok hnd.2 hmem'
      rw [hrec, List.map_map]
      apply List.map_congr_left
      intro y _
      simp only [Function.comp_apply, List.find?_cons]
      by_cases hy : y.id = x.id
      · have hbeq : (x.id == y.id) = true := by simp [hy]
        rw [hbeq]
        have hcond : (y.id == x.id) = true := by simp [hy]
        rw [hcond]
        simp only [if_pos]
        have hxid : rest.find? (fun z => z.id == (unlinkedJob now x).id) = none := by
          rw [List.find?_eq_none]
          intro z hz
          show ¬ (z.id == (unlinkedJob now x).id) = true
          rw [unlinkedJob_id, beq_iff_eq]
          intro he
          exact hnd.1 (he ▸ List.mem_map_of_mem (·.id) hz)
        rw [hxid]
      · have hbeq : (x.id == y.id) = false := by
          rw [beq_eq_false_iff_ne]
          exact fun he => hy he.symm
        rw [hbeq]
        have hcond : (y.id == x.id) = false := by
          rw [beq_eq_false_iff_ne]
          exact hy
        rw [hcond]
        simp only [Bool.false_eq_true, if_false]

/-- C9 (amended): deleting a client clears `clientId` (to the empty string,
this codebase's null client reference) on every job that referenced it and
restamps those jobs' `updatedAt`; every other field of those jobs and every
other job is unchanged, no job is deleted, and the client record is removed. -/
theorem clientDelete_unlinks (now : Nat) (clients : List Client) (jobs : List Job)
    (k : String) (hnodup : (jobs.map (·.id)).Nodup)
    (clients' : List Client) (jobs' : List Job)
    (hok : clientDeleteHandler now clients jobs k = Except.ok (clients', jobs')) :
    jobs' = jobs.map (fun jb =>
      if jb.clientId == k then { jb with clientId := "", updatedAt := now } else jb)
    ∧ jobs'.length = jobs.length
    ∧ clients' = deleteByKey (·.id) clients k
    ∧ ∀ c ∈ clients', c.id ≠ k := by
  have hlnd : ((getJobsByClient jobs k).map (·.id)).Nodup :=
    ((List.filter_sublist jobs).map (·.id)).nodup hnodup
  cases hu : unlinkJobs now jobs (getJobsByClient jobs k) with
  | error e => rw [clientDeleteHandler, hu] at hok; cases hok
  | ok jOut =>
    rw [clientDeleteHandler, hu, Except.ok.injEq, Prod.mk.injEq] at hok
    obtain ⟨hcl, hjb⟩ := hok
    have hmem : ∀ x ∈ getJobsByClient jobs k,
        jobs.any (fun y => y.id == x.id) = true := by
      intro x hx
      rw [List.any_eq_true]
      exact ⟨x, (List.mem_filter.mp hx).1, by simp⟩
    have hchar := unlinkJobs_ok now (getJobsByClient jobs k) jobs jOut hu hlnd hmem
    have hpoint : ∀ y ∈ jobs,
        (match (getJobsByClient jobs k).find? (fun x => x.id == y.id) with
         | some x => unlinkedJob now x
         | none => y)
        = (if y.clientId == k then { y with clientId := "", updatedAt := now } else y) := by
      intro y hy
      by_cases hc : (y.clientId == k) = true
      · have hyf : y ∈ getJobsByClient jobs k :=
          List.mem_filter.mpr ⟨hy, hc⟩
        rw [find?_key_self (·.id) _ hlnd y hyf, if_pos hc]
        rfl
      · have hnone : (getJobsByClient jobs k).find? (fun x => x.id == y.id) = none := by
          rw [List.find?_eq_none]
          intro x hxf
          show ¬ (x.id == y.id) = true
          rw [beq_iff_eq]
          intro he
          have hxj : x ∈ jobs := (List.mem_filter.mp hxf).1
          have hxy : x = y := List.inj_on_of_nodup_map hnodup hxj hy he
          rw [hxy] at hxf
          exact hc (List.mem_filter.mp hxf).2
        rw [Bool.not_eq_true] at hc
        rw [hnone, hc]
        simp
    have hjobs : jobs' = jobs.map (fun jb =>
        if jb.clientId == k then { jb with clientId := "", updatedAt := now } else jb) := by
      rw [← hjb, hchar]
      exact List.map_congr_left hpoint
    refine ⟨hjobs, by rw [hjobs, List.length_map], hcl.symm, ?_⟩
    intro c hc
    rw [← hcl] at hc
    exact ((mem_deleteByKey (·.id) clients k c).mp hc).2

def c9client : Client :=
  { id := "k1", companyName := "Acme Capital", industrySector := "", contacts := [],
    notes := "", externalId := none, createdAt := 0, updatedAt := 0 }

def c9job : Job :=
  { id := "j1", title := "Compliance Analyst", clientId := "k1", description := "",
    requirements := "", requiredCerts := [], preferredCerts := [],
    compensationMin := none, compensationMax := none, compensationType := "salary",
    location := "", remote := false, status := "open", statusDate := 0,
    stages := ["Sourced"], externalId := none, createdAt := 0, updatedAt := 100 }

def c9jobAfter : Job := { c9job with clientId := "", updatedAt := 200 }

theorem clientDelete_unlinks_witness :
    ([c9jobAfter] : List Job) = [c9job].map (fun jb =>
      if jb.clientId == "k1" then { jb with clientId := "", updatedAt := 200 } else jb)
    ∧ ([c9jobAfter] : List Job).length = [c9job].length
    ∧ ([] : List Client) = deleteByKey (·.id) [c9client] "k1"
    ∧ ∀ c ∈ ([] : List Client), c.id ≠ "k1" :=
  clientDelete_unlinks 200 [c9client] [c9job] "k1" (by decide) [] [c9jobAfter] rfl

/-- C9 counterexample: the claim says every Job field other than `clientId`
is unchanged, but `db.updateJob` restamps `updatedAt` on each unlinked job:
deleting client `k1` at time 200 changes `c9job.updatedAt` from 100 to 200. -/
theorem clientDelete_restamps_updatedAt :
    clientDeleteHandler 200 [c9client] [c9job] "k1" = Except.ok ([], [c9jobAfter])
    ∧ c9jobAfter.updatedAt ≠ c9job.updatedAt :=
  ⟨rfl, by decide⟩

/-! ## C1: the pipeline reorder protocol (`pipeline.js` `handleDragEnd` and
`db.js` `batchUpdatePipelinePositions`) -/

/-- One `{id, position, stage?, historyEntry?}` descriptor of the batch. -/
structure PosUpdate where
  id : String
  position : Nat
  stage : Option String
  historyEntry : Option HistoryEvent
deriving DecidableEq

/-- The in-memory mutation applied per descriptor by
`batchUpdatePipelinePositions`. -/
def applyUpdate (now : Nat) (u : PosUpdate) (e : PipelineEntry) : PipelineEntry :=
  { e with
    position := u.position
    stage := u.stage.getD e.stage
    history :=
      match u.historyEntry with
      | some h => e.history ++ [h]
      | none => e.history
    updatedAt := now }

/-- `batchUpdatePipelinePositions`: read the targeted entries, mutate them in
memory in descriptor order, write every mutated entry back; entries missing
from the store are skipped. -/
def batchUpdatePipelinePositions (now : Nat) (store : List PipelineEntry)
    (updates : List PosUpdate) : List PipelineEntry :=
  updates.foldl
    (fun st u => st.map (fun e => if e.id == u.id then applyUpdate now u e else e)) store

/-- A bare `{id, position}` descriptor from a DOM index/entry pair. -/
def plainUpdate (p : Nat × String) : PosUpdate :=
  { id := p.2, position := p.1, stage := none, historyEntry := none }

/-- `handleDragEnd` adds `stage` and a history event to the descriptor of the
dragged entry. -/
def annotate (entryId newStage : String) (now : Nat) (u : PosUpdate) : PosUpdate :=
  if u.id == entryId then
    { u with stage := some newStage,
             historyEntry := some { stage := newStage, date := now,
                                    notes := "Moved from previous stage" } }
  else u

def dragUpdate (entryId newStage : String) (now : Nat) (p : Nat × String) : PosUpdate :=
  annotate entryId newStage now (plainUpdate p)

/-- The batch built by `handleDragEnd`: the destination column's visual order
renumbered 0..n-1, plus (on a cross-column move) the source column's. -/
def dragUpdates (entryId newStage : String) (now : Nat) (toIds fromIds : List String)
    (cross : Bool) : List PosUpdate :=
  ((toIds.enum.map plainUpdate)
    ++ (if cross then fromIds.enum.map plainUpdate else [])).map
      (annotate entryId newStage now)

def handleDragEnd (now : Nat) (store : List PipelineEntry) (entryId newStage : String)
    (toIds fromIds : List String) (cross : Bool) : List PipelineEntry :=
  batchUpdatePipelinePositions now store (dragUpdates entryId newStage now toIds fromIds cross)

/-- The net effect of the whole batch on a single entry. -/
def perEntryUpdate (now : Nat) (updates : List PosUpdate) (e : PipelineEntry) :
    PipelineEntry :=
  updates.foldl (fun acc u => if acc.id == u.id then applyUpdate now u acc else acc) e

theorem applyUpdate_id (now : Nat) (u : PosUpdate) (e : PipelineEntry) :
    (applyUpdate now u e).id = e.id := rfl

theorem dragUpdate_id (entryId newStage : String) (now : Nat) (p : Nat × String) :
    (dragUpdate entryId newStage now p).id = p.2 := by
  by_cases h : (p.2 == entryId) = true <;>
    simp [dragUpdate, annotate, plainUpdate, h]

theorem dragUpdate_position (entryId newStage : String) (now : Nat) (p : Nat × String) :
    (dragUpdate entryId newStage now p).position = p.1 := by
  by_cases h : (p.2 == entryId) = true <;>
    simp [dragUpdate, annotate, plainUpdate, h]

theorem dragUpdate_stage (entryId newStage : String) (now : Nat) (p : Nat × String) :
    (dragUpdate entryId newStage now p).stage
      = if p.2 == entryId then some newStage else none := by
  by_cases h : (p.2 == entryId) = true <;>
    simp [dragUpdate, annotate, plainUpdate, h]

theorem dragUpdates_eq (entryId newStage : String) (now : Nat)
    (toIds fromIds : List String) (cross : Bool) :
    dragUpdates entryId newStage now toIds fromIds cross
      = toIds.enum.map (dragUpdate entryId newStage now)
        ++ (if cross then fromIds.enum.map (dragUpdate entryId newStage now) else []) := by
  cases cross
  · simp only [dragUpdates, Bool.false_eq_true, if_false, List.append_nil, List.map_map]
    rfl
  · simp only [dragUpdates, if_pos, List.map_append, List.map_map]
    rfl

theorem perEntryUpdate_id (now : Nat) :
    ∀ (updates : List PosUpdate) (e : PipelineEntry),
      (perEntryUpdate now updates e).id = e.id := by
  intro updates
  induction updates with
  | nil => intro e; rfl
  | cons u us ih =>
    intro e
    show (perEntryUpdate now us (if e.id == u.id then applyUpdate now u e else e)).id = e.id
    by_cases h : (e.id == u.id) = true
    · rw [if_pos h, ih, applyUpdate_id]
    · rw [if_neg h, ih]

theorem perEntryUpdate_no_match (now : Nat) :
    ∀ (updates : List PosUpdate) (e : PipelineEntry),
      (∀ u ∈ updates, u.id ≠ e.id) → perEntryUpdate now updates e = e := by
  intro updates
  induction updates with
  | nil => intro e _; rfl
  | cons u us ih =>
    intro e h
    have hne : (e.id == u.id) = false := by
      rw [beq_eq_false_iff_ne]
      exact fun he => h u (List.mem_cons_self u us) he.symm
    show perEntryUpdate now us (if e.id == u.id then applyUpdate now u e else e) = e
    rw [hne]
    simp only [Bool.false_eq_true, if_false]
    exact ih e (fun v hv => h v (List.mem_cons_of_mem u hv))

theorem perEntryUpdate_append (now : Nat) (l1 l2 : List PosUpdate) (e : PipelineEntry) :
    perEntryUpdate now (l1 ++ l2) e = perEntryUpdate now l2 (perEntryUpdate now l1 e) :=
  List.foldl_append ..

theorem batch_eq_map (now : Nat) :
    ∀ (updates : List PosUpdate) (store : List PipelineEntry),
      batchUpdatePipelinePositions now store updates
        = store.map (perEntryUpdate now updates) := by
  intro updates
  induction updates with
  | nil =>
    intro store
    show store = store.map (fun e => e)
    rw [List.map_id']
  | cons u us ih =>
    intro store
    show batchUpdatePipelinePositions now
        (store.map (fun e => if e.id == u.id then applyUpdate now u e else e)) us = _
    rw [ih, List.map_map]
    rfl

/-- Index of the first occurrence of `x`. -/
def idxOf (x : String) : List String → Nat
  | [] => 0
  | y :: ys => if y == x then 0 else idxOf x ys + 1

theorem idxOf_cons_self (x : String) (ys : List String) : idxOf x (x :: ys) = 0 := by
  simp [idxOf]

theorem idxOf_cons_ne (y x : String) (ys : List String) (h : y ≠ x) :
    idxOf x (y :: ys) = idxOf x ys + 1 := by
  simp [idxOf, h]

theorem map_idxOf_nodup :
    ∀ l : List String, l.Nodup → l.map (fun x => idxOf x l) = List.range l.length := by
  intro l
  induction l with
  | nil => intro _; rfl
  | cons a as ih =>
    intro h
    rw [List.nodup_cons] at h
    rw [List.map_cons, idxOf_cons_self, List.length_cons, List.range_succ_eq_map]
    congr 1
    have h1 : as.map (fun x => idxOf x (a :: as)) = as.map (fun x => idxOf x as + 1) :=
      List.map_congr_left (fun x hx =>
        idxOf_cons_ne a x as (fun he => h.1 (he ▸ hx)))
    rw [h1, ← ih h.2, List.map_map]
    rfl

theorem perEntry_drag_enum (now : Nat) (entryId newStage : String) :
    ∀ (l : List String) (n : Nat) (e : PipelineEntry),
      l.Nodup → e.id ∈ l →
      perEntryUpdate now ((List.enumFrom n l).map (dragUpdate entryId newStage now)) e
        = applyUpdate now (dragUpdate entryId newStage now (n + idxOf e.id l, e.id)) e := by
  intro l
  induction l with
  | nil => intro n e _ he; cases he
  | cons a as ih =>
    intro n e hnd he
    rw [List.nodup_cons] at hnd
    rw [show List.enumFrom n (a :: as) = (n, a) :: List.enumFrom (n + 1) as from rfl,
      List.map_cons]
    by_cases hcase : e.id = a
    · have hbeq : (e.id == (dragUpdate entryId newStage now (n, a)).id) = true := by
        rw [dragUpdate_id]
        simp [hcase]
      show perEntryUpdate now _ (if e.id == (dragUpdate entryId newStage now (n, a)).id
          then applyUpdate now (dragUpdate entryId newStage now (n, a)) e else e) = _
      rw [hbeq]
      simp only [if_pos]
      have hnm : ∀ u ∈ (List.enumFrom (n + 1) as).map (dragUpdate entryId newStage now),
          u.id ≠ (applyUpdate now (dragUpdate entryId newStage now (n, a)) e).id := by
        intro u hu
        rw [applyUpdate_id]
        obtain ⟨p, hp, rfl⟩ := List.mem_map.mp hu
        rw [dragUpdate_id]
        intro hpe
        have : p.2 ∈ as := List.snd_mem_of_mem_enumFrom hp
        rw [hpe, hcase] at this
        exact hnd.1 this
      rw [perEntryUpdate_no_match now _ _ hnm]
      have harg : ((n : Nat), a) = (n + idxOf e.id (a :: as), e.id) := by
        rw [hcase, idxOf_cons_self]
        simp
      rw [harg]
    · have hbeq : (e.id == (dragUpdate entryId newStage now (n, a)).id) = false := by
        rw [dragUpdate_id, beq_eq_false_iff_ne]
        exact hcase
      show perEntryUpdate now _ (if e.id == (dragUpdate entryId newStage now (n, a)).id
          then applyUpdate now (dragUpdate entryId newStage now (n, a)) e else e) = _
      rw [hbeq]
      simp only [Bool.false_eq_true, if_false]
      have hmem : e.id ∈ as := by
        cases List.mem_cons.mp he with
        | inl h => exact absurd h hcase
        | inr h => exact h
      rw [ih (n + 1) e hnd.2 hmem]
      have harg : ((n + 1 + idxOf e.id as : Nat), e.id)
          = (n + idxOf e.id (a :: as), e.id) := by
        rw [idxOf_cons_ne a e.id as (fun h => hcase h.symm)]
        rw [Prod.mk.injEq]
        exact ⟨by omega, rfl⟩
      rw [harg]

/-- If, after the batch, membership in a column is exactly "id listed in the
visual order `ids`" and each listed entry's position is its index in `ids`,
then the column's positions are a permutation of `0..n-1`. -/
theorem column_perm (store : List PipelineEntry) (g : PipelineEntry → PipelineEntry)
    (p : PipelineEntry → Bool) (ids : List String)
    (hnodup : (store.map (·.id)).Nodup)
    (hidsNodup : ids.Nodup)
    (hcol : ∀ e ∈ store, p (g e) = decide (e.id ∈ ids))
    (hpos : ∀ e ∈ store, e.id ∈ ids → (g e).position = idxOf e.id ids)
    (hcompl : ∀ i ∈ ids, ∃ e ∈ store, e.id = i) :
    List.Perm (((store.map g).filter p).map (·.position)) (List.range ids.length) := by
  rw [List.filter_map, List.map_map]
  have h1 : store.filter (p ∘ g) = store.filter (fun e => decide (e.id ∈ ids)) :=
    List.filter_congr (fun e he => hcol e he)
  rw [h1]
  have h2 : (store.filter (fun e => decide (e.id ∈ ids))).map ((·.position) ∘ g)
      = (store.filter (fun e => decide (e.id ∈ ids))).map (fun e => idxOf e.id ids) := by
    apply List.map_congr_left
    intro e hef
    rw [List.mem_filter] at hef
    exact hpos e hef.1 (of_decide_eq_true hef.2)
  rw [h2]
  have h3 : (store.filter (fun e => decide (e.id ∈ ids))).map (fun e => idxOf e.id ids)
      = ((store.filter (fun e => decide (e.id ∈ ids))).map (·.id)).map
          (fun i => idxOf i ids) := by
    rw [List.map_map]
    rfl
  rw [h3]
  have h4 : List.Perm ((store.filter (fun e => decide (e.id ∈ ids))).map (·.id)) ids := by
    refine (List.perm_ext_iff_of_nodup
      (((List.filter_sublist store).map _).nodup hnodup) hidsNodup).mpr ?_
    intro i
    constructor
    · intro hmem
      rw [List.mem_map] at hmem
      obtain ⟨e, hef, rfl⟩ := hmem
      rw [List.mem_filter] at hef
      exact of_decide_eq_true hef.2
    · intro hi
      obtain ⟨e, hes, rfl⟩ := hcompl i hi
      rw [List.mem_map]
      exact ⟨e, List.mem_filter.mpr ⟨hes, decide_eq_true hi⟩, rfl⟩
  exact (h4.map (fun i => idxOf i ids)).trans (by rw [map_idxOf_nodup ids hidsNodup])

theorem dragUpdates_true (entryId newStage : String) (now : Nat)
    (toIds fromIds : List String) :
    dragUpdates entryId newStage now toIds fromIds true
      = toIds.enum.map (dragUpdate entryId newStage now)
        ++ fromIds.enum.map (dragUpdate entryId newStage now) := by
  rw [dragUpdates_eq]
  rw [if_pos rfl]

theorem dragUpdates_false (entryId newStage : String) (now : Nat)
    (toIds fromIds : List String) :
    dragUpdates entryId newStage now toIds fromIds false
      = toIds.enum.map (dragUpdate entryId newStage now) := by
  rw [dragUpdates_eq]
  simp only [Bool.false_eq_true, if_false, List.append_nil]

theorem applyUpdate_jobId (now : Nat) (u : PosUpdate) (e : PipelineEntry) :
    (applyUpdate now u e).jobId = e.jobId := rfl

theorem applyUpdate_position (now : Nat) (u : PosUpdate) (e : PipelineEntry) :
    (applyUpdate now u e).position = u.position := rfl

theorem applyUpdate_stage (now : Nat) (u : PosUpdate) (e : PipelineEntry) :
    (applyUpdate now u e).stage = u.stage.getD e.stage := rfl

theorem applied_dragUpdate_stage (now : Nat) (entryId newStage : String) (i : Nat)
    (e : PipelineEntry) :
    (applyUpdate now (dragUpdate entryId newStage now (i, e.id)) e).stage
      = if e.id == entryId then newStage else e.stage := by
  by_cases h : (e.id == entryId) = true <;>
    simp [applyUpdate_stage, dragUpdate_stage, h]

/-- C1: after a drag-and-drop move whose visual orders `toIds` (destination
column, post-drop) and `fromIds` (source column, cross-column moves only)
faithfully enumerate the affected `(jobId, stage)` columns, the batch update
leaves each affected column with positions that are exactly `0..n-1`. -/
theorem reorder_positions_contiguous
    (now : Nat) (store : List PipelineEntry) (entryId newStage oldStage j : String)
    (toIds fromIds : List String) (cross : Bool)
    (hnodup : (store.map (·.id)).Nodup)
    (hdrag : store.any (fun e => e.id == entryId && e.jobId == j) = true)
    (hTo : List.Perm toIds ((store.filter
        (fun e => e.jobId == j && (e.stage == newStage || e.id == entryId))).map (·.id)))
    (hcross : cross = true → oldStage ≠ newStage ∧
        List.Perm fromIds ((store.filter
          (fun e => e.jobId == j && e.stage == oldStage && !(e.id == entryId))).map (·.id))) :
    List.Perm
      (((handleDragEnd now store entryId newStage toIds fromIds cross).filter
        (fun e => e.jobId == j && e.stage == newStage)).map (·.position))
      (List.range toIds.length)
    ∧ (cross = true →
      List.Perm
        (((handleDragEnd now store entryId newStage toIds fromIds cross).filter
          (fun e => e.jobId == j && e.stage == oldStage)).map (·.position))
        (List.range fromIds.length)) := by
  have hinj : ∀ ⦃x : PipelineEntry⦄, x ∈ store → ∀ ⦃y : PipelineEntry⦄, y ∈ store →
      x.id = y.id → x = y := List.inj_on_of_nodup_map hnodup
  have memTo : ∀ i, i ∈ toIds ↔ ∃ e ∈ store, e.id = i
      ∧ (e.jobId == j && (e.stage == newStage || e.id == entryId)) = true := by
    intro i
    rw [hTo.mem_iff, List.mem_map]
    constructor
    · rintro ⟨e, hef, rfl⟩
      rw [List.mem_filter] at hef
      exact ⟨e, hef.1, rfl, hef.2⟩
    · rintro ⟨e, hes, rfl, hcond⟩
      exact ⟨e, List.mem_filter.mpr ⟨hes, hcond⟩, rfl⟩
  have memTo' : ∀ e ∈ store, (e.id ∈ toIds ↔
      (e.jobId == j && (e.stage == newStage || e.id == entryId)) = true) := by
    intro e hes
    rw [memTo e.id]
    constructor
    · rintro ⟨w, hws, hwid, hcond⟩
      rwa [hinj hws hes hwid] at hcond
    · intro hcond
      exact ⟨e, hes, rfl, hcond⟩
  have toNodup : toIds.Nodup :=
    hTo.nodup_iff.mpr (((List.filter_sublist store).map _).nodup hnodup)
  have hdrag' : ∃ ed ∈ store, ed.id = entryId ∧ ed.jobId = j := by
    rw [List.any_eq_true] at hdrag
    obtain ⟨ed, hed, hca⟩ := hdrag
    rw [Bool.and_eq_true, beq_iff_eq, beq_iff_eq] at hca
    exact ⟨ed, hed, hca.1, hca.2⟩
  have entryInTo : entryId ∈ toIds := by
    obtain ⟨ed, hed, hedid, hedjob⟩ := hdrag'
    have h := (memTo' ed hed).mpr (by simp [hedid, hedjob])
    rwa [hedid] at h
  have hcomplTo : ∀ i ∈ toIds, ∃ e ∈ store, e.id = i := by
    intro i hi
    obtain ⟨e, hes, hid, _⟩ := (memTo i).mp hi
    exact ⟨e, hes, hid⟩
  cases cross with
  | false =>
    have hToU : ∀ e ∈ store, e.id ∈ toIds →
        perEntryUpdate now (dragUpdates entryId newStage now toIds fromIds false) e
          = applyUpdate now (dragUpdate entryId newStage now (idxOf e.id toIds, e.id)) e := by
      intro e _ hmem
      rw [dragUpdates_false, show toIds.enum = List.enumFrom 0 toIds from rfl,
        perEntry_drag_enum now entryId newStage toIds 0 e toNodup hmem, Nat.zero_add]
    have hNoneU : ∀ e ∈ store, e.id ∉ toIds →
        perEntryUpdate now (dragUpdates entryId newStage now toIds fromIds false) e = e := by
      intro e _ hmem
      rw [dragUpdates_false]
      apply perEntryUpdate_no_match
      intro u hu
      obtain ⟨p, hp, rfl⟩ := List.mem_map.mp hu
      rw [dragUpdate_id]
      intro hpe
      exact hmem (hpe ▸ List.snd_mem_of_mem_enumFrom hp)
    have hcolTo : ∀ e ∈ store,
        ((perEntryUpdate now (dragUpdates entryId newStage now toIds fromIds false) e).jobId == j
          && (perEntryUpdate now (dragUpdates entryId newStage now toIds fromIds false) e).stage
              == newStage) = decide (e.id ∈ toIds) := by
      intro e hes
      by_cases hmem : e.id ∈ toIds
      · rw [decide_eq_true hmem, hToU e hes hmem]
        have hcond := (memTo' e hes).mp hmem
        rw [Bool.and_eq_true, beq_iff_eq, Bool.or_eq_true, beq_iff_eq, beq_iff_eq] at hcond
        rw [applyUpdate_jobId, applied_dragUpdate_stage]
        by_cases hent : (e.id == entryId) = true
        · rw [if_pos hent]
          simp [hcond.1]
        · rw [if_neg hent]
          have hst : e.stage = newStage := by
            cases hcond.2 with
            | inl h => exact h
            | inr h => exact absurd (by simp [h]) hent
          simp [hcond.1, hst]
      · rw [decide_eq_false hmem, hNoneU e hes hmem]
        cases hb : (e.jobId == j && e.stage == newStage) with
        | false => rfl
        | true =>
          exfalso
          rw [Bool.and_eq_true] at hb
          exact hmem ((memTo' e hes).mpr (by simp [hb.1, hb.2]))
    have hposTo : ∀ e ∈ store, e.id ∈ toIds →
        (perEntryUpdate now (dragUpdates entryId newStage now toIds fromIds false) e).position
          = idxOf e.id toIds := by
      intro e hes hmem
      rw [hToU e hes hmem, applyUpdate_position, dragUpdate_position]
    constructor
    · rw [handleDragEnd, batch_eq_map]
      exact column_perm store _ _ toIds hnodup toNodup hcolTo hposTo hcomplTo
    · intro h
      simp at h
  | true =>
    obtain ⟨hne, hFrom⟩ := hcross rfl
    have memFrom : ∀ i, i ∈ fromIds ↔ ∃ e ∈ store, e.id = i
        ∧ (e.jobId == j && e.stage == oldStage && !(e.id == entryId)) = true := by
      intro i
      rw [hFrom.mem_iff, List.mem_map]
      constructor
      · rintro ⟨e, hef, rfl⟩
        rw [List.mem_filter] at hef
        exact ⟨e, hef.1, rfl, hef.2⟩
      · rintro ⟨e, hes, rfl, hcond⟩
        exact ⟨e, List.mem_filter.mpr ⟨hes, hcond⟩, rfl⟩
    have memFrom' : ∀ e ∈ store, (e.id ∈ fromIds ↔
        (e.jobId == j && e.stage == oldStage && !(e.id == entryId)) = true) := by
      intro e hes
      rw [memFrom e.id]
      constructor
      · rintro ⟨w, hws, hwid, hcond⟩
        rwa [hinj hws hes hwid] at hcond
      · intro hcond
        exact ⟨e, hes, rfl, hcond⟩
    have fromNodup : fromIds.Nodup :=
      hFrom.nodup_iff.mpr (((List.filter_sublist store).map _).nodup hnodup)
    have hcomplFrom : ∀ i ∈ fromIds, ∃ e ∈ store, e.id = i := by
      intro i hi
      obtain ⟨e, hes, hid, _⟩ := (memFrom i).mp hi
      exact ⟨e, hes, hid⟩
    have hdisj : ∀ i, i ∈ toIds → i ∈ fromIds → False := by
      intro i h1 h2
      obtain ⟨w1, hw1, hid1, hc1⟩ := (memTo i).mp h1
      obtain ⟨w2, hw2, hid2, hc2⟩ := (memFrom i).mp h2
      have hw : w2 = w1 := hinj hw2 hw1 (hid2.trans hid1.symm)
      rw [hw] at hc2
      rw [Bool.and_eq_true, beq_iff_eq, Bool.or_eq_true, beq_iff_eq, beq_iff_eq] at hc1
      rw [Bool.and_eq_true, Bool.and_eq_true, beq_iff_eq, beq_iff_eq,
        Bool.not_eq_true', beq_eq_false_iff_ne] at hc2
      cases hc1.2 with
      | inl h => exact hne (hc2.1.2 ▸ h ▸ rfl)
      | inr h => exact hc2.2 h
    have hToU : ∀ e ∈ store, e.id ∈ toIds →
        perEntryUpdate now (dragUpdates entryId newStage now toIds fromIds true) e
          = applyUpdate now (dragUpdate entryId newStage now (idxOf e.id toIds, e.id)) e := by
      intro e _ hmem
      rw [dragUpdates_true, perEntryUpdate_append,
        show toIds.enum = List.enumFrom 0 toIds from rfl,
        perEntry_drag_enum now entryId newStage toIds 0 e toNodup hmem, Nat.zero_add]
      apply perEntryUpdate_no_match
      intro u hu
      obtain ⟨p, hp, rfl⟩ := List.mem_map.mp hu
      rw [dragUpdate_id, applyUpdate_id]
      intro hpe
      exact hdisj e.id hmem (hpe ▸ List.snd_mem_of_mem_enumFrom hp)
    have hFromU : ∀ e ∈ store, e.id ∈ fromIds →
        perEntryUpdate now (dragUpdates entryId newStage now toIds fromIds true) e
          = applyUpdate now (dragUpdate entryId newStage now (idxOf e.id fromIds, e.id)) e := by
      intro e _ hmem
      rw [dragUpdates_true, perEntryUpdate_append]
      have h1 : perEntryUpdate now (toIds.enum.map (dragUpdate entryId newStage now)) e
          = e := by
        apply perEntryUpdate_no_match
        intro u hu
        obtain ⟨p, hp, rfl⟩ := List.mem_map.mp hu
        rw [dragUpdate_id]
        intro hpe
        exact hdisj p.2 (List.snd_mem_of_mem_enumFrom hp) (hpe.symm ▸ hmem)
      rw [h1, show fromIds.enum = List.enumFrom 0 fromIds from rfl,
        perEntry_drag_enum now entryId newStage fromIds 0 e fromNodup hmem, Nat.zero_add]
    have hNoneU : ∀ e ∈ store, e.id ∉ toIds → e.id ∉ fromIds →
        perEntryUpdate now (dragUpdates entryId newStage now toIds fromIds true) e = e := by
      intro e _ hm1 hm2
      rw [dragUpdates_true]
      apply perEntryUpdate_no_match
      intro u hu
      rw [List.mem_append] at hu
      cases hu with
      | inl h =>
        obtain ⟨p, hp, rfl⟩ := List.mem_map.mp h
        rw [dragUpdate_id]
        intro hpe
        exact hm1 (hpe ▸ List.snd_mem_of_mem_enumFrom hp)
      | inr h =>
        obtain ⟨p, hp, rfl⟩ := List.mem_map.mp h
        rw [dragUpdate_id]
        intro hpe
        exact hm2 (hpe ▸ List.snd_mem_of_mem_enumFrom hp)
    have hcolTo : ∀ e ∈ store,
        ((perEntryUpdate now (dragUpdates entryId newStage now toIds fromIds true) e).jobId == j
          && (perEntryUpdate now (dragUpdates entryId newStage now toIds fromIds true) e).stage
              == newStage) = decide (e.id ∈ toIds) := by
      intro e hes
      by_cases hmem : e.id ∈ toIds
      · rw [decide_eq_true hmem, hToU e hes hmem]
        have hcond := (memTo' e hes).mp hmem
        rw [Bool.and_eq_true, beq_iff_eq, Bool.or_eq_true, beq_iff_eq, beq_iff_eq] at hcond
        rw [applyUpdate_jobId, applied_dragUpdate_stage]
        by_cases hent : (e.id == entryId) = true
        · rw [if_pos hent]
          simp [hcond.1]
        · rw [if_neg hent]
          have hst : e.stage = newStage := by
            cases hcond.2 with
            | inl h => exact h
            | inr h => exact absurd (by simp [h]) hent
          simp [hcond.1, hst]
      · rw [decide_eq_false hmem]
        by_cases hf : e.id ∈ fromIds
        · rw [hFromU e hes hf]
          have hcond := (memFrom' e hes).mp hf
          rw [Bool.and_eq_true, Bool.and_eq_true, beq_iff_eq, beq_iff_eq,
            Bool.not_eq_true', beq_eq_false_iff_ne] at hcond
          rw [applyUpdate_jobId, applied_dragUpdate_stage,
            if_neg (by rw [Bool.not_eq_true, beq_eq_false_iff_ne]; exact hcond.2)]
          have hsb : (e.stage == newStage) = false := by
            rw [beq_eq_false_iff_ne, hcond.1.2]
            exact hne
          simp [hsb]
        · rw [hNoneU e hes hmem hf]
          cases hb : (e.jobId == j && e.stage == newStage) with
          | false => rfl
          | true =>
            exfalso
            rw [Bool.and_eq_true] at hb
            exact hmem ((memTo' e hes).mpr (by simp [hb.1, hb.2]))
    have hcolFrom : ∀ e ∈ store,
        ((perEntryUpdate now (dragUpdates entryId newStage now toIds fromIds true) e).jobId == j
          && (perEntryUpdate now (dragUpdates entryId newStage now toIds fromIds true) e).stage
              == oldStage) = decide (e.id ∈ fromIds) := by
      intro e hes
      by_cases hf : e.id ∈ fromIds
      · rw [decide_eq_true hf, hFromU e hes hf]
        have hcond := (memFrom' e hes).mp hf
        rw [Bool.and_eq_true, Bool.and_eq_true, beq_iff_eq, beq_iff_eq,
          Bool.not_eq_true', beq_eq_false_iff_ne] at hcond
        rw [applyUpdate_jobId, applied_dragUpdate_stage,
          if_neg (by rw [Bool.not_eq_true, beq_eq_false_iff_ne]; exact hcond.2)]
        simp [hcond.1.1, hcond.1.2]
      · rw [decide_eq_false hf]
        by_cases hmem : e.id ∈ toIds
        · rw [hToU e hes hmem]
          rw [applyUpdate_jobId, applied_dragUpdate_stage]
          have hns : (newStage == oldStage) = false := by
            rw [beq_eq_false_iff_ne]
            exact fun h => hne h.symm
          by_cases hent : (e.id == entryId) = true
          · rw [if_pos hent]
            simp [hns]
          · rw [if_neg hent]
            have hcond := (memTo' e hes).mp hmem
            rw [Bool.and_eq_true, beq_iff_eq, Bool.or_eq_true, beq_iff_eq,
              beq_iff_eq] at hcond
            have hst : e.stage = newStage := by
              cases hcond.2 with
              | inl h => exact h
              | inr h => exact absurd (by simp [h]) hent
            rw [hst]
            simp [hns]
        · rw [hNoneU e hes hmem hf]
          cases hb : (e.jobId == j && e.stage == oldStage) with
          | false => rfl
          | true =>
            exfalso
            rw [Bool.and_eq_true, beq_iff_eq, beq_iff_eq] at hb
            by_cases hent : e.id = entryId
            · exact hmem (hent ▸ entryInTo)
            · exact hf ((memFrom' e hes).mpr (by simp [hb.1, hb.2, hent]))
    have hposTo : ∀ e ∈ store, e.id ∈ toIds →
        (perEntryUpdate now (dragUpdates entryId newStage now toIds fromIds true) e).position
          = idxOf e.id toIds := by
      intro e hes hmem
      rw [hToU e hes hmem, applyUpdate_position, dragUpdate_position]
    have hposFrom : ∀ e ∈ store, e.id ∈ fromIds →
        (perEntryUpdate now (dragUpdates entryId newStage now toIds fromIds true) e).position
          = idxOf e.id fromIds := by
      intro e hes hmem
      rw [hFromU e hes hmem, applyUpdate_position, dragUpdate_position]
    constructor
    · rw [handleDragEnd, batch_eq_map]
      exact column_perm store _ _ toIds hnodup toNodup hcolTo hposTo hcomplTo
    · intro _
      rw [handleDragEnd, batch_eq_map]
      exact column_perm store _ _ fromIds hnodup fromNodup hcolFrom hposFrom hcomplFrom

def c1p1 : PipelineEntry :=
  { id := "p1", candidateId := "c1", jobId := "j1", stage := "Screen", position := 0,
    history := [], createdAt := 0, updatedAt := 0 }

def c1p2 : PipelineEntry :=
  { id := "p2", candidateId := "c2", jobId := "j1", stage := "Screen", position := 1,
    history := [], createdAt := 0, updatedAt := 0 }

def c1p3 : PipelineEntry :=
  { id := "p3", candidateId := "c3", jobId := "j1", stage := "Sourced", position := 0,
    history := [], createdAt := 0, updatedAt := 0 }

theorem reorder_positions_contiguous_witness :
    List.Perm
      (((handleDragEnd 50 [c1p1, c1p2, c1p3] "p3" "Screen" ["p1", "p3", "p2"] [] true).filter
        (fun e => e.jobId == "j1" && e.stage == "Screen")).map (·.position))
      (List.range (["p1", "p3", "p2"] : List String).length)
    ∧ List.Perm
      (((handleDragEnd 50 [c1p1, c1p2, c1p3] "p3" "Screen" ["p1", "p3", "p2"] [] true).filter
        (fun e => e.jobId == "j1" && e.stage == "Sourced")).map (·.position))
      (List.range ([] : List String).length) := by
  have h := reorder_positions_contiguous 50 [c1p1, c1p2, c1p3] "p3" "Screen" "Sourced" "j1"
    ["p1", "p3", "p2"] [] true (by decide) (by decide) (by decide)
    (fun _ => ⟨by decide, by decide⟩)
  exact ⟨h.1, h.2 rfl⟩
